import Mathlib

/-!
Verification of the concurrent circular-buffer writer core of
`main.py` (RAM-disk speed-test engine), shallowly embedded in Lean.

All byte offsets are modelled as naturals.  This is exact for every state
the claims quantify over: the write loop keeps
`start_offset ≤ cursor ≤ end_offset` (proved below), so none of the
subtractions in the source can go negative there.
-/

namespace CyberPrayer

/-! ## Partitioning (main.py, `main`, lines 217–227)

```python
chunk_size = pool_bytes // threads
for i in range(threads):
    start = i * chunk_size
    end = start + chunk_size
    w = WriterThread(i, mm, start, end, source_data, stop_event)
```
-/

/-- The chunk size `pool_bytes // threads` (integer division). -/
def chunkSize (pool_bytes threads : ℕ) : ℕ := pool_bytes / threads

/-- One worker's partition of the mapped region: `[start_offset, end_offset)`. -/
structure Partition where
  start_offset : ℕ
  end_offset : ℕ
deriving DecidableEq, Repr

/-- The partitions constructed by the startup loop: partition `i`
is `[i*chunk_size, i*chunk_size + chunk_size)`, for every `i < threads`
(the last partition gets the same length as all the others). -/
def mkPartitions (pool_bytes threads : ℕ) : List Partition :=
  (List.range threads).map (fun i =>
    ⟨i * chunkSize pool_bytes threads,
     i * chunkSize pool_bytes threads + chunkSize pool_bytes threads⟩)

/-! ## Thread-count resolution (main.py, `main`, lines 157–159)

```python
threads = cfg.get("threads", 0)
if threads <= 0:
    threads = os.cpu_count() or 4
```
`os.cpu_count()` returns `None` or a positive int; `x or 4` yields `4`
when `x` is `None` or `0`. -/

/-- Resolve the worker count from the configured value and the host's
`os.cpu_count()` result.  No validation and no `ConfigError`: a
non-positive configured value silently falls back to the host default. -/
def resolveThreads (cfgThreads : ℤ) (cpuCount : Option ℕ) : ℕ :=
  if cfgThreads ≤ 0 then
    match cpuCount with
    | none => 4
    | some c => if c = 0 then 4 else c
  else cfgThreads.toNat

/-! ## Writer state and one iteration of `WriterThread.run` (lines 100–120)

```python
while not self.stop_event.is_set():
    end_pos = cursor + src_len
    if end_pos <= end_off:
        mm[cursor:end_pos] = src_data
        cursor = end_pos
    else:
        remaining = end_off - cursor
        if remaining > 0:
            mm[cursor:end_off] = src_data[:remaining]
        overflow = src_len - remaining
        new_cursor = start_off + overflow
        mm[start_off:new_cursor] = src_data[remaining:]
        cursor = new_cursor
    self.write_count += 1
    self.total_bytes += src_len
```
-/

/-- The mutable per-worker scalar state of `WriterThread.run`:
the cursor and the two counters. -/
structure WState where
  cursor : ℕ
  write_count : ℕ
  total_bytes : ℕ
deriving DecidableEq, Repr

/-- The cursor after one complete iteration of the write loop. -/
def nextCursor (start_off end_off src_len cursor : ℕ) : ℕ :=
  let end_pos := cursor + src_len
  if end_pos ≤ end_off then
    end_pos
  else
    let remaining := end_off - cursor
    let overflow := src_len - remaining
    start_off + overflow

/-- One complete iteration of the write loop, acting on the scalar state:
the cursor advances by `nextCursor`, and after the copy completes
`write_count` gains 1 and `total_bytes` gains `src_len`. -/
def iterState (start_off end_off src_len : ℕ) (s : WState) : WState :=
  ⟨nextCursor start_off end_off src_len s.cursor,
   s.write_count + 1,
   s.total_bytes + src_len⟩

/-- The slice assignments `mm[a:b] = data` issued by one iteration of the
write loop, as triples `(a, b, data)`, in program order.  In the direct
branch there is one write of the whole payload; in the wraparound branch
there is a tail write (skipped when `remaining = 0`) and a head write. -/
def iterWrites (start_off end_off : ℕ) (src : List ℕ) (cursor : ℕ) :
    List (ℕ × ℕ × List ℕ) :=
  let src_len := src.length
  let end_pos := cursor + src_len
  if end_pos ≤ end_off then
    [(cursor, end_pos, src)]
  else
    let remaining := end_off - cursor
    let overflow := src_len - remaining
    (if remaining > 0 then [(cursor, end_off, src.take remaining)] else [])
      ++ [(start_off, start_off + overflow, src.drop remaining)]

/-- Effect of one slice assignment `mm[a:b] = data` on the mapped region,
modelled as a function from offsets to byte values. -/
def applyWrite (mm : ℕ → ℕ) (w : ℕ × ℕ × List ℕ) : ℕ → ℕ :=
  fun j => if w.1 ≤ j ∧ j < w.2.1 then (w.2.2).getD (j - w.1) 0 else mm j

/-- Effect of a sequence of slice assignments, applied in order. -/
def applyWrites (mm : ℕ → ℕ) (ws : List (ℕ × ℕ × List ℕ)) : ℕ → ℕ :=
  ws.foldl applyWrite mm

/-! ## The write loop with cooperative cancellation

`obs k` is the value `self.stop_event.is_set()` returns at the `k`-th
check, i.e. at the top of the loop when `k` iterations have completed.
The loop body runs to completion between checks; `fuel` bounds the
number of iterations we unfold (the Python loop is unbounded). -/

/-- The loop of `WriterThread.run` on the scalar state: at check number
`k`, stop if the token reads true, otherwise run one complete
iteration. -/
def runLoop (start_off end_off src_len : ℕ) (obs : ℕ → Bool) :
    ℕ → ℕ → WState → WState
  | 0, _, s => s
  | fuel + 1, k, s =>
      if obs k then s
      else runLoop start_off end_off src_len obs fuel (k + 1)
        (iterState start_off end_off src_len s)

/-- Number of complete iterations the loop performs, starting at check
number `k` with `fuel` checks available. -/
def loopIters (obs : ℕ → Bool) : ℕ → ℕ → ℕ
  | 0, _ => 0
  | fuel + 1, k => if obs k then 0 else loopIters obs fuel (k + 1) + 1

/-! ## Delta throughput (main.py, `main`, lines 248–254)

```python
diff_bytes = cur_bytes - last_total_bytes
diff_time = now - last_time
if diff_time <= 0: diff_time = 0.001
speed_gb = (diff_bytes / 1024 ** 3) / diff_time
```
Modelled over `ℚ` (the float computation, exact in the rationals; the
divergence exhibited in the C7 counterexample is a factor of 2, far
beyond any floating-point rounding or the claim's `1e-6` tolerance). -/

/-- The reported delta throughput: `diff_time` is replaced by `0.001`
only when it is `≤ 0`, otherwise it is used as-is. -/
def speedGB (diff_bytes diff_time : ℚ) : ℚ :=
  let dt := if diff_time ≤ 0 then 1 / 1000 else diff_time
  (diff_bytes / 1024 ^ 3) / dt

/-- The spec's claimed formula (stated from the spec's words, for
comparison with `speedGB`): `delta_bytes / 2^30 / max(delta_time, ε)`
with `ε = 0.001`. -/
def specSpeedGB (diff_bytes diff_time : ℚ) : ℚ :=
  diff_bytes / 2 ^ 30 / max diff_time (1 / 1000)

/-! ## Fallible region writes and the try/except around the loop

Python `mmap` slice assignment `mm[a:b] = data` clamps the slice bounds
to `[0, size]` and raises when `data`'s length differs from the clamped
slice's length.  `WriterThread.run` wraps its whole loop in
`try/except Exception`, so an error raised by a slice write terminates
that worker's loop immediately — after the last completed iteration's
counter updates — and is caught inside `run` (lines 98 and 122–123). -/

/-- Python mmap slice assignment `mm[a:b] = data` on a mapping of
`size` bytes: succeeds only when `data` has exactly the clamped slice's
length, otherwise raises (returns `none`). -/
def writeSliceM (size : ℕ) (mm : ℕ → ℕ) (a b : ℕ) (data : List ℕ) :
    Option (ℕ → ℕ) :=
  if data.length = min b size - min a size then
    some (fun j => if min a size ≤ j ∧ j < min b size
      then data.getD (j - min a size) 0 else mm j)
  else none

/-- One complete iteration of the write loop including its region
writes: `none` models an exception raised partway through the
iteration, in which case no counter is updated (the counters are only
incremented after both segments of the iteration succeed, mirroring
lines 100–120 where the increments follow the writes). -/
def runIterM (size start_off end_off : ℕ) (src : List ℕ) (s : WState)
    (mm : ℕ → ℕ) : Option (WState × (ℕ → ℕ)) :=
  let src_len := src.length
  let end_pos := s.cursor + src_len
  if end_pos ≤ end_off then
    match writeSliceM size mm s.cursor end_pos src with
    | none => none
    | some mm1 =>
        some (⟨end_pos, s.write_count + 1, s.total_bytes + src_len⟩, mm1)
  else
    let remaining := end_off - s.cursor
    let overflow := src_len - remaining
    match (if remaining > 0 then
            writeSliceM size mm s.cursor end_off (src.take remaining)
           else some mm) with
    | none => none
    | some mm1 =>
        match writeSliceM size mm1 start_off (start_off + overflow)
            (src.drop remaining) with
        | none => none
        | some mm2 =>
            some (⟨start_off + overflow, s.write_count + 1,
                   s.total_bytes + src_len⟩, mm2)

/-- The full loop with the surrounding `try/except`: a raised write
error abandons the loop and leaves the worker's state exactly as it was
after the last completed iteration; the error is caught and `run`
returns normally (the function is total and always yields a state). -/
def runE (size start_off end_off : ℕ) (src : List ℕ) (obs : ℕ → Bool) :
    ℕ → ℕ → WState → (ℕ → ℕ) → WState × (ℕ → ℕ)
  | 0, _, s, mm => (s, mm)
  | fuel + 1, k, s, mm =>
      if obs k then (s, mm)
      else
        match runIterM size start_off end_off src s mm with
        | none => (s, mm)
        | some (s2, mm2) => runE size start_off end_off src obs fuel (k + 1) s2 mm2

/-! ## Helper lemmas about the partitioner -/

theorem mkPartitions_length (pool_bytes threads : ℕ) :
    (mkPartitions pool_bytes threads).length = threads := by
  simp [mkPartitions]

theorem mkPartitions_getElem (pool_bytes threads i : ℕ) (hi : i < threads) :
    (mkPartitions pool_bytes threads)[i]? =
      some ⟨i * chunkSize pool_bytes threads,
            i * chunkSize pool_bytes threads + chunkSize pool_bytes threads⟩ := by
  simp [mkPartitions, List.getElem?_map, List.getElem?_range, hi]

theorem mkPartitions_mem (pool_bytes threads : ℕ) (p : Partition)
    (hp : p ∈ mkPartitions pool_bytes threads) :
    ∃ i, i < threads ∧
      p = ⟨i * chunkSize pool_bytes threads,
           i * chunkSize pool_bytes threads + chunkSize pool_bytes threads⟩ := by
  simp only [mkPartitions, List.mem_map, List.mem_range] at hp
  obtain ⟨i, hi, hip⟩ := hp
  exact ⟨i, hi, hip.symm⟩

/-- C1 — counterexample: with `base_size = 5` and `N = 2` the code's last
partition is `[2, 4)`, not `[(N-1)*chunk, base_size) = [2, 5)`: the
partitions end at `4`, not at `base_size = 5`, so the remainder byte is
not absorbed by the last partition. -/
theorem C1_counterexample :
    (1 : ℕ) ≤ 2 ∧ (2 : ℕ) ≤ 5 ∧
    mkPartitions 5 2 = [⟨0, 2⟩, ⟨2, 4⟩] ∧
    (mkPartitions 5 2).getLast?.map Partition.end_offset = some 4 ∧
    (4 : ℕ) ≠ 5 := by
  refine ⟨by decide, by decide, ?_, ?_, by decide⟩ <;> decide

/-- C1 (amended): for every `base_size` and `N ≥ 1` the startup loop
produces `N` partitions where partition `i` is
`[i*chunk, (i+1)*chunk)` with `chunk = floor(base_size / N)` — for every
`i`, including the last.  They are pairwise non-overlapping, contiguous,
and start at `0`, but they end at `N*chunk = base_size - base_size mod N`
rather than at `base_size`: the remainder `base_size mod N` is left
unassigned instead of being absorbed by the last partition. -/
theorem C1_partition_tiling (pool_bytes threads : ℕ) (h : 1 ≤ threads) :
    (mkPartitions pool_bytes threads).length = threads ∧
    (∀ i, i < threads →
      (mkPartitions pool_bytes threads)[i]? =
        some ⟨i * chunkSize pool_bytes threads,
              i * chunkSize pool_bytes threads + chunkSize pool_bytes threads⟩) ∧
    ((mkPartitions pool_bytes threads)[0]?.map Partition.start_offset = some 0) ∧
    ((mkPartitions pool_bytes threads)[threads - 1]?.map Partition.end_offset =
      some (threads * chunkSize pool_bytes threads)) ∧
    threads * chunkSize pool_bytes threads = pool_bytes - pool_bytes % threads ∧
    (∀ i, i + 1 < threads →
      (mkPartitions pool_bytes threads)[i]?.map Partition.end_offset =
        (mkPartitions pool_bytes threads)[i + 1]?.map Partition.start_offset) ∧
    (∀ i j pi pj, i < j → j < threads →
      (mkPartitions pool_bytes threads)[i]? = some pi →
      (mkPartitions pool_bytes threads)[j]? = some pj →
      pi.end_offset ≤ pj.start_offset) := by
  refine ⟨mkPartitions_length _ _, mkPartitions_getElem _ _, ?_, ?_, ?_, ?_, ?_⟩
  · rw [mkPartitions_getElem _ _ 0 (by omega)]
    simp
  · rw [mkPartitions_getElem _ _ (threads - 1) (by omega)]
    have : (threads - 1) * chunkSize pool_bytes threads + chunkSize pool_bytes threads
        = threads * chunkSize pool_bytes threads := by
      have h2 : threads - 1 + 1 = threads := by omega
      calc (threads - 1) * chunkSize pool_bytes threads + chunkSize pool_bytes threads
          = (threads - 1 + 1) * chunkSize pool_bytes threads := by ring
        _ = threads * chunkSize pool_bytes threads := by rw [h2]
    simp [this]
  · have hdm := Nat.div_add_mod pool_bytes threads
    unfold chunkSize
    omega
  · intro i hi
    rw [mkPartitions_getElem _ _ i (by omega), mkPartitions_getElem _ _ (i + 1) hi]
    simp [Nat.succ_mul]
  · intro i j pi pj hij hj hpi hpj
    rw [mkPartitions_getElem _ _ i (by omega)] at hpi
    rw [mkPartitions_getElem _ _ j hj] at hpj
    cases hpi; cases hpj
    have : (i + 1) * chunkSize pool_bytes threads ≤ j * chunkSize pool_bytes threads :=
      Nat.mul_le_mul_right _ (by omega)
    simpa [Nat.succ_mul] using this

/-- Witness for `C1_partition_tiling` at `base_size = 5`, `N = 2`. -/
theorem C1_partition_tiling_witness :
    (mkPartitions 5 2).length = 2 ∧
    (∀ i, i < 2 →
      (mkPartitions 5 2)[i]? =
        some ⟨i * chunkSize 5 2, i * chunkSize 5 2 + chunkSize 5 2⟩) ∧
    ((mkPartitions 5 2)[0]?.map Partition.start_offset = some 0) ∧
    ((mkPartitions 5 2)[2 - 1]?.map Partition.end_offset = some (2 * chunkSize 5 2)) ∧
    2 * chunkSize 5 2 = 5 - 5 % 2 ∧
    (∀ i, i + 1 < 2 →
      (mkPartitions 5 2)[i]?.map Partition.end_offset =
        (mkPartitions 5 2)[i + 1]?.map Partition.start_offset) ∧
    (∀ i j pi pj, i < j → j < 2 →
      (mkPartitions 5 2)[i]? = some pi →
      (mkPartitions 5 2)[j]? = some pj →
      pi.end_offset ≤ pj.start_offset) :=
  C1_partition_tiling 5 2 (by decide)

/-! ## Helper lemmas about the write cursor -/

/-- One loop iteration keeps the cursor inside `[start_offset, end_offset]`
(the closed interval: a direct write ending exactly at the boundary leaves
the cursor at `end_offset`). -/
theorem nextCursor_mem_Icc (start_off end_off L c : ℕ) (hL : 0 < L)
    (hLS : L ≤ end_off - start_off) (hc1 : start_off ≤ c) (hc2 : c ≤ end_off) :
    start_off ≤ nextCursor start_off end_off L c ∧
      nextCursor start_off end_off L c ≤ end_off := by
  simp only [nextCursor]
  split_ifs with hbr <;> omega

/-- The inductive step of the wraparound cursor formula: from
`cursor = start + r + 1` with `r < S` (where `S = end - start`), one
iteration moves the cursor to `start + (r + L) % S + 1`. -/
theorem nextCursor_step (start_off end_off L r : ℕ) (hL : 0 < L)
    (hLS : L ≤ end_off - start_off) (hr : r < end_off - start_off) :
    nextCursor start_off end_off L (start_off + r + 1) =
      start_off + (r + L) % (end_off - start_off) + 1 := by
  have hse : start_off < end_off := by omega
  simp only [nextCursor]
  split_ifs with hbr
  · rw [Nat.mod_eq_of_lt (by omega)]
    omega
  · have hmod : (r + L) % (end_off - start_off)
        = r + L - (end_off - start_off) := by
      rw [Nat.mod_eq_sub_mod (by omega), Nat.mod_eq_of_lt (by omega)]
    rw [hmod]
    omega

/-- Cursor value after `m ≥ 1` complete iterations starting at
`start_offset`: `start + ((m*L - 1) mod S) + 1` where `S = end - start`. -/
theorem cursor_after_iters (start_off end_off L : ℕ) (hL : 0 < L)
    (hLS : L ≤ end_off - start_off) :
    ∀ m, 1 ≤ m →
      Nat.iterate (nextCursor start_off end_off L) m start_off =
        start_off + (m * L - 1) % (end_off - start_off) + 1 := by
  have hS : 0 < end_off - start_off := by omega
  intro m hm
  induction m, hm using Nat.le_induction with
  | base =>
    rw [Function.iterate_one]
    simp only [nextCursor, one_mul]
    rw [Nat.mod_eq_of_lt (by omega)]
    split_ifs with hbr <;> omega
  | succ m hm ih =>
    rw [Function.iterate_succ_apply', ih]
    have harg : start_off + (m * L - 1) % (end_off - start_off) + 1
        = start_off + ((m * L - 1) % (end_off - start_off)) + 1 := rfl
    rw [nextCursor_step start_off end_off L _ hL hLS
      (Nat.mod_lt _ hS)]
    have hmr : ((m * L - 1) % (end_off - start_off) + L) % (end_off - start_off)
        = ((m + 1) * L - 1) % (end_off - start_off) := by
      have h1 : (m + 1) * L - 1 = (m * L - 1) + L := by
        have : 1 ≤ m * L := Nat.one_le_iff_ne_zero.mpr
          (Nat.mul_ne_zero (by omega) (by omega))
        calc (m + 1) * L - 1 = m * L + L - 1 := by ring_nf
          _ = (m * L - 1) + L := by omega
      rw [h1]
      conv_lhs => rw [Nat.add_mod]
      conv_rhs => rw [Nat.add_mod]
      rw [Nat.mod_mod_of_dvd _ dvd_rfl]
    rw [hmr]

/-- C2 — counterexample: partition `[0, 4)`, payload length `L = 2`
(satisfying `0 < L ≤ end - start`), after `m = 2` complete iterations
the cursor is `4 = end`, while the claimed formula gives
`start + (m*L) mod (end-start) = 0 + 4 mod 4 = 0`. -/
theorem C2_counterexample :
    (0 : ℕ) < 2 ∧ (2 : ℕ) ≤ 4 - 0 ∧
    Nat.iterate (nextCursor 0 4 2) 2 0 = 4 ∧
    0 + (2 * 2) % (4 - 0) = 0 ∧ (4 : ℕ) ≠ 0 := by
  decide

/-- C2 (amended): for a partition `[start, end)`, payload length
`0 < L ≤ end - start`, and `m ≥ 1` complete iterations from
`cursor = start`, the cursor ends at `start + ((m*L - 1) mod S) + 1`
with `S = end - start`.  This equals the claimed
`start + (m*L) mod S` whenever `(m*L) mod S ≠ 0`, but when
`(m*L) mod S = 0` the cursor is `end` (not `start` as the claim's
formula would give): the code leaves the cursor at the partition
boundary rather than normalising it back to `start`. -/
theorem C2_cursor_formula (start_off end_off L m : ℕ) (hL : 0 < L)
    (hLS : L ≤ end_off - start_off) (hm : 1 ≤ m) :
    Nat.iterate (nextCursor start_off end_off L) m start_off =
      start_off + (m * L - 1) % (end_off - start_off) + 1 ∧
    ((m * L) % (end_off - start_off) ≠ 0 →
      Nat.iterate (nextCursor start_off end_off L) m start_off =
        start_off + (m * L) % (end_off - start_off)) ∧
    ((m * L) % (end_off - start_off) = 0 →
      Nat.iterate (nextCursor start_off end_off L) m start_off = end_off) := by
  have hS : 0 < end_off - start_off := by omega
  have hmain := cursor_after_iters start_off end_off L hL hLS m hm
  have hpos : 1 ≤ m * L := Nat.one_le_iff_ne_zero.mpr
    (Nat.mul_ne_zero (by omega) (by omega))
  have hdm := Nat.div_add_mod (m * L) (end_off - start_off)
  refine ⟨hmain, ?_, ?_⟩
  · intro ht
    have hlt : (m * L) % (end_off - start_off) < end_off - start_off :=
      Nat.mod_lt _ hS
    have h1 : m * L - 1 = (end_off - start_off) * (m * L / (end_off - start_off))
        + ((m * L) % (end_off - start_off) - 1) := by omega
    rw [hmain, h1, Nat.mul_add_mod, Nat.mod_eq_of_lt (by omega)]
    omega
  · intro ht
    have hge : end_off - start_off ≤ m * L := by
      by_contra hcon
      push_neg at hcon
      rw [Nat.mod_eq_of_lt hcon] at ht
      omega
    have hq : 0 < m * L / (end_off - start_off) := Nat.div_pos hge hS
    have h1 : m * L - 1 = (end_off - start_off) * (m * L / (end_off - start_off) - 1)
        + (end_off - start_off - 1) := by
      have h2 : (end_off - start_off) * (m * L / (end_off - start_off))
          = (end_off - start_off) * (m * L / (end_off - start_off) - 1)
            + (end_off - start_off) := by
        have h3 : m * L / (end_off - start_off) - 1 + 1
            = m * L / (end_off - start_off) := by omega
        calc (end_off - start_off) * (m * L / (end_off - start_off))
            = (end_off - start_off) * ((m * L / (end_off - start_off) - 1) + 1) := by
              rw [h3]
          _ = (end_off - start_off) * (m * L / (end_off - start_off) - 1)
              + (end_off - start_off) := by ring
      omega
    rw [hmain, h1, Nat.mul_add_mod, Nat.mod_eq_of_lt (by omega)]
    omega

/-- Witness for `C2_cursor_formula`: partition `[0, 4)`, `L = 2`, `m = 3`
— the cursor lands at `0 + (6 - 1) mod 4 + 1 = 2`. -/
theorem C2_cursor_formula_witness :
    Nat.iterate (nextCursor 0 4 2) 3 0 = 0 + (3 * 2 - 1) % (4 - 0) + 1 ∧
    ((3 * 2) % (4 - 0) ≠ 0 →
      Nat.iterate (nextCursor 0 4 2) 3 0 = 0 + (3 * 2) % (4 - 0)) ∧
    ((3 * 2) % (4 - 0) = 0 → Nat.iterate (nextCursor 0 4 2) 3 0 = 4) :=
  C2_cursor_formula 0 4 2 3 (by decide) (by decide) (by decide)

/-- C4 — counterexample: partition `[0, 4)`, payload length `L = 2`
(satisfying `0 < L ≤ end - start`): at the iteration boundary after the
second iteration the cursor equals `4`, violating `cursor < end = 4`. -/
theorem C4_counterexample :
    (0 : ℕ) < 2 ∧ (2 : ℕ) ≤ 4 - 0 ∧
    Nat.iterate (nextCursor 0 4 2) 2 0 = 4 ∧ ¬ ((4 : ℕ) < 4) := by
  decide

/-- C4 (amended): for a partition `[start, end)` and payload length
`0 < L ≤ end - start`, at every iteration boundary of the write loop the
cursor satisfies `start ≤ cursor ≤ end` — the upper bound is inclusive:
when a direct write ends exactly at the partition boundary the cursor is
left at `end` until the next iteration wraps it. -/
theorem C4_cursor_bounds (start_off end_off L : ℕ) (hL : 0 < L)
    (hLS : L ≤ end_off - start_off) (m : ℕ) :
    start_off ≤ Nat.iterate (nextCursor start_off end_off L) m start_off ∧
      Nat.iterate (nextCursor start_off end_off L) m start_off ≤ end_off := by
  induction m with
  | zero =>
    simp only [Function.iterate_zero, id_eq]
    exact ⟨le_refl _, by omega⟩
  | succ m ih =>
    rw [Function.iterate_succ_apply']
    exact nextCursor_mem_Icc start_off end_off L _ hL hLS ih.1 ih.2

/-- Witness for `C4_cursor_bounds`: partition `[0, 4)`, `L = 2`, `m = 2`. -/
theorem C4_cursor_bounds_witness :
    0 ≤ Nat.iterate (nextCursor 0 4 2) 2 0 ∧
      Nat.iterate (nextCursor 0 4 2) 2 0 ≤ 4 :=
  C4_cursor_bounds 0 4 2 (by decide) (by decide) 2

/-! ## Helper lemmas about the cancellation loop -/

/-- The loop result is an exact iterate of complete iteration steps:
the loop never stops partway through an iteration. -/
theorem runLoop_eq_iterate (start_off end_off src_len : ℕ) (obs : ℕ → Bool) :
    ∀ fuel k s, runLoop start_off end_off src_len obs fuel k s =
      Nat.iterate (iterState start_off end_off src_len) (loopIters obs fuel k) s := by
  intro fuel
  induction fuel with
  | zero => intro k s; rfl
  | succ fuel ih =>
    intro k s
    simp only [runLoop, loopIters]
    split_ifs with hk
    · rfl
    · rw [ih, Function.iterate_succ_apply]

/-- Counter bookkeeping across the loop: `write_count` gains exactly the
number of completed iterations and `total_bytes` gains `src_len` per
completed iteration. -/
theorem runLoop_counters (start_off end_off src_len : ℕ) (obs : ℕ → Bool) :
    ∀ fuel k s,
      (runLoop start_off end_off src_len obs fuel k s).write_count =
        s.write_count + loopIters obs fuel k ∧
      (runLoop start_off end_off src_len obs fuel k s).total_bytes =
        s.total_bytes + loopIters obs fuel k * src_len := by
  intro fuel
  induction fuel with
  | zero => intro k s; simp [runLoop, loopIters]
  | succ fuel ih =>
    intro k s
    simp only [runLoop, loopIters]
    split_ifs with hk
    · simp
    · obtain ⟨h1, h2⟩ := ih (k + 1) (iterState start_off end_off src_len s)
      refine ⟨?_, ?_⟩
      · rw [h1]; simp only [iterState]; omega
      · rw [h2]; simp only [iterState]; ring

/-- Every check made before the loop stops reads the token as false. -/
theorem loopIters_obs_false (obs : ℕ → Bool) :
    ∀ fuel k j, j < loopIters obs fuel k → obs (k + j) = false := by
  intro fuel
  induction fuel with
  | zero => intro k j h; simp [loopIters] at h
  | succ fuel ih =>
    intro k j h
    simp only [loopIters] at h
    split_ifs at h with hk
    · omega
    · cases j with
      | zero => simpa using hk
      | succ j =>
        have := ih (k + 1) j (by omega)
        simpa [Nat.add_assoc, Nat.add_comm 1 j] using this

/-- If the loop stopped before running out of fuel, the check at which it
stopped read the token as true. -/
theorem loopIters_obs_true (obs : ℕ → Bool) :
    ∀ fuel k, loopIters obs fuel k < fuel → obs (k + loopIters obs fuel k) = true := by
  intro fuel
  induction fuel with
  | zero => intro k h; omega
  | succ fuel ih =>
    intro k h
    simp only [loopIters] at h ⊢
    split_ifs with hk
    · simpa using hk
    · rw [if_neg hk] at h
      have hrec := ih (k + 1) (by omega)
      have heq : k + (loopIters obs fuel (k + 1) + 1)
          = (k + 1) + loopIters obs fuel (k + 1) := by omega
      rw [heq]
      exact hrec

/-- If the token reads true at check `k + n`, the loop starting at check
`k` completes at most `n` more iterations. -/
theorem loopIters_le_of_obs (obs : ℕ → Bool) :
    ∀ fuel k n, obs (k + n) = true → loopIters obs fuel k ≤ n := by
  intro fuel
  induction fuel with
  | zero => intro k n _; simp [loopIters]
  | succ fuel ih =>
    intro k n hn
    simp only [loopIters]
    split_ifs with hk
    · omega
    · cases n with
      | zero => simp at hn; rw [hn] at hk; simp at hk
      | succ n =>
        have := ih (k + 1) n (by simpa [Nat.add_assoc, Nat.add_comm 1 n] using hn)
        omega

/-- C3: starting from the worker's initial state
(`cursor = start_offset`, both counters zero), when the loop has
completed `k = loopIters` full iterations its counters satisfy
`write_count = k` and `total_bytes = k * L`, and the final state is an
exact iterate of complete iteration steps — the token is only consulted
between iterations, so no iteration is ever abandoned partway and
`total_bytes` is always an exact multiple of `L`. -/
theorem C3_counter_invariant (start_off end_off src_len fuel : ℕ) (obs : ℕ → Bool) :
    (runLoop start_off end_off src_len obs fuel 0 ⟨start_off, 0, 0⟩).write_count =
      loopIters obs fuel 0 ∧
    (runLoop start_off end_off src_len obs fuel 0 ⟨start_off, 0, 0⟩).total_bytes =
      loopIters obs fuel 0 * src_len ∧
    runLoop start_off end_off src_len obs fuel 0 ⟨start_off, 0, 0⟩ =
      Nat.iterate (iterState start_off end_off src_len) (loopIters obs fuel 0)
        ⟨start_off, 0, 0⟩ := by
  obtain ⟨h1, h2⟩ := runLoop_counters start_off end_off src_len obs fuel 0 ⟨start_off, 0, 0⟩
  exact ⟨by simpa using h1, by simpa using h2,
    runLoop_eq_iterate start_off end_off src_len obs fuel 0 ⟨start_off, 0, 0⟩⟩

/-- C5: with a write-once token (monotone observation sequence), if the
token reads true at check number `m` then the worker completes at most
`m` iterations in total — so a token set while `m - 1` iterations were
complete allows at most one more completed iteration.  The loop exits
exactly at the first check that reads true (every earlier check read
false, and the stopping check read true), and the final state is an
iterate of whole iterations — never a partial one. -/
theorem C5_graceful_stop (start_off end_off src_len fuel m : ℕ) (obs : ℕ → Bool)
    (_hmono : ∀ i j, i ≤ j → obs i = true → obs j = true)
    (hm : obs m = true) (hfuel : m < fuel) :
    loopIters obs fuel 0 ≤ m ∧
    obs (loopIters obs fuel 0) = true ∧
    (∀ j, j < loopIters obs fuel 0 → obs j = false) ∧
    runLoop start_off end_off src_len obs fuel 0 ⟨start_off, 0, 0⟩ =
      Nat.iterate (iterState start_off end_off src_len) (loopIters obs fuel 0)
        ⟨start_off, 0, 0⟩ := by
  have hle : loopIters obs fuel 0 ≤ m := loopIters_le_of_obs obs fuel 0 m (by simpa using hm)
  refine ⟨hle, ?_, ?_, runLoop_eq_iterate start_off end_off src_len obs fuel 0 _⟩
  · have := loopIters_obs_true obs fuel 0 (by omega)
    simpa using this
  · intro j hj
    have := loopIters_obs_false obs fuel 0 j hj
    simpa using this

/-- Witness for `C5_graceful_stop`: a token that becomes (and stays) true
from check 2 on, with fuel 5. -/
theorem C5_graceful_stop_witness :
    loopIters (fun k => decide (2 ≤ k)) 5 0 ≤ 2 ∧
    (fun k => decide (2 ≤ k)) (loopIters (fun k => decide (2 ≤ k)) 5 0) = true ∧
    (∀ j, j < loopIters (fun k => decide (2 ≤ k)) 5 0 →
      (fun k => decide (2 ≤ k)) j = false) ∧
    runLoop 0 4 2 (fun k => decide (2 ≤ k)) 5 0 ⟨0, 0, 0⟩ =
      Nat.iterate (iterState 0 4 2) (loopIters (fun k => decide (2 ≤ k)) 5 0)
        ⟨0, 0, 0⟩ :=
  C5_graceful_stop 0 4 2 5 2 (fun k => decide (2 ≤ k))
    (by intro i j hij hi; simp only [decide_eq_true_eq] at hi ⊢; omega)
    (by decide) (by decide)

/-! ## C6: there is no ConfigError

`main` performs no partitioning validation at all: a non-positive
configured thread count silently falls back to `os.cpu_count() or 4`
(lines 157–159), and the partition loop (lines 217–227) runs
unconditionally for any `pool_bytes`, producing `threads` (possibly
empty) partitions.  No exception of any kind is raised, and workers are
spawned regardless. -/

/-- C6 — counterexample: with `base_size = 1 < N = 2` the claim requires
partitioning to fail with a `ConfigError`, but the code has no failure
path: it produces the two empty partitions `[0, 0)` and `[0, 0)` and
proceeds; likewise a configured `N = -3 ≤ 0` does not fail but is
silently replaced by the host default. -/
theorem C6_counterexample :
    mkPartitions 1 2 = [⟨0, 0⟩, ⟨0, 0⟩] ∧
    (mkPartitions 1 2).length = 2 ∧
    resolveThreads (-3) (some 8) = 8 := by
  refine ⟨?_, ?_, ?_⟩ <;> decide

/-- C6 (amended): partitioning never fails and no `ConfigError` exists in
the code.  A configured thread count `N ≤ 0` is replaced before
partitioning by the host default (`os.cpu_count() or 4`), which is always
positive; and when `base_size < N` the startup loop still produces `N`
partitions — all of them the empty range `[0, 0)` — and spawns a worker
for each, with no error raised. -/
theorem C6_no_config_error (pool_bytes threads : ℕ) (h : pool_bytes < threads) :
    (mkPartitions pool_bytes threads).length = threads ∧
    (∀ p ∈ mkPartitions pool_bytes threads, p = ⟨0, 0⟩) ∧
    (∀ (ct : ℤ) (cpu : Option ℕ), (cpu = none ∨ ∃ c, cpu = some c) →
      1 ≤ resolveThreads ct cpu) := by
  have hc : chunkSize pool_bytes threads = 0 := Nat.div_eq_of_lt h
  refine ⟨mkPartitions_length _ _, ?_, ?_⟩
  · intro p hp
    obtain ⟨i, _, hip⟩ := mkPartitions_mem _ _ p hp
    rw [hip, hc]
    simp
  · intro ct cpu _
    unfold resolveThreads
    split_ifs with hct
    · cases cpu with
      | none => simp
      | some c =>
        simp only []
        split_ifs with hc0
        · simp
        · omega
    · omega

/-- Witness for `C6_no_config_error` at `base_size = 1`, `N = 2`. -/
theorem C6_no_config_error_witness :
    (mkPartitions 1 2).length = 2 ∧
    (∀ p ∈ mkPartitions 1 2, p = ⟨0, 0⟩) ∧
    (∀ (ct : ℤ) (cpu : Option ℕ), (cpu = none ∨ ∃ c, cpu = some c) →
      1 ≤ resolveThreads ct cpu) :=
  C6_no_config_error 1 2 (by decide)

/-! ## C7: the delta-throughput formula -/

/-- C7 — counterexample: at `delta_bytes = 2^30` and
`delta_time = 1/2000 > 0` the code reports `2000` GiB/s (it divides by
the actual `delta_time`), while the claimed `max(delta_time, ε)` formula
gives `1000` GiB/s — a discrepancy of `1000`, far beyond the claimed
`1e-6` tolerance.  The two formulas also contradict each other there, so
the claim is inconsistent as stated. -/
theorem C7_counterexample :
    speedGB (2 ^ 30) (1 / 2000) = 2000 ∧
    specSpeedGB (2 ^ 30) (1 / 2000) = 1000 ∧
    ¬ (|speedGB (2 ^ 30) (1 / 2000) - specSpeedGB (2 ^ 30) (1 / 2000)|
        ≤ 1 / 1000000) := by
  have h1 : speedGB (2 ^ 30) (1 / 2000) = 2000 := by
    unfold speedGB
    norm_num
  have h2 : specSpeedGB (2 ^ 30) (1 / 2000) = 1000 := by
    unfold specSpeedGB
    rw [max_eq_right (by norm_num)]
    norm_num
  refine ⟨h1, h2, ?_⟩
  rw [h1, h2]
  norm_num

/-- C7 (amended): the reported delta throughput equals
`delta_bytes / 2^30 / delta_time` (exactly, in the rational model) for
every `delta_time > 0`, and `delta_bytes / 2^30 / 0.001` for
`delta_time ≤ 0`: `ε = 0.001` is a substitute used only when the
measured interval is non-positive, not a lower floor applied through
`max`. -/
theorem C7_throughput (diff_bytes diff_time : ℚ) (h : 0 < diff_time) :
    speedGB diff_bytes diff_time = diff_bytes / 2 ^ 30 / diff_time ∧
    (∀ db : ℚ, ∀ dt : ℚ, dt ≤ 0 → speedGB db dt = db / 2 ^ 30 / (1 / 1000)) := by
  constructor
  · unfold speedGB
    rw [if_neg (not_le.mpr h)]
    norm_num
  · intro db dt hdt
    unfold speedGB
    rw [if_pos hdt]
    norm_num

/-- Witness for `C7_throughput` at `delta_bytes = 2^31`,
`delta_time = 1/2`. -/
theorem C7_throughput_witness :
    speedGB (2 ^ 31) (1 / 2) = 2 ^ 31 / 2 ^ 30 / (1 / 2) ∧
    (∀ db : ℚ, ∀ dt : ℚ, dt ≤ 0 → speedGB db dt = db / 2 ^ 30 / (1 / 1000)) :=
  C7_throughput (2 ^ 31) (1 / 2) (by norm_num)

/-! ## Bounds of the slice writes -/

/-- Every slice write issued by one iteration lies inside
`[start_offset, end_offset)` and has data of exactly the slice's
length, provided the iteration starts with
`start_offset ≤ cursor ≤ end_offset` and `0 < L ≤ end_offset - start_offset`. -/
theorem iterWrites_bounds (start_off end_off : ℕ) (src : List ℕ) (c : ℕ)
    (hL : 0 < src.length) (hLS : src.length ≤ end_off - start_off)
    (hc1 : start_off ≤ c) (hc2 : c ≤ end_off) :
    ∀ w ∈ iterWrites start_off end_off src c,
      start_off ≤ w.1 ∧ w.2.1 ≤ end_off ∧ w.2.2.length = w.2.1 - w.1 := by
  intro w hw
  simp only [iterWrites] at hw
  split_ifs at hw with hbr hrem
  · simp only [List.mem_singleton] at hw
    subst hw
    exact ⟨hc1, hbr, by simp⟩
  · simp only [List.mem_append, List.mem_singleton] at hw
    rcases hw with hw | hw <;> subst hw
    · refine ⟨hc1, le_refl _, ?_⟩
      dsimp only
      rw [List.length_take]
      omega
    · refine ⟨le_refl _, by dsimp only; omega, ?_⟩
      dsimp only
      rw [List.length_drop]
      omega
  · simp only [List.nil_append, List.mem_singleton] at hw
    subst hw
    refine ⟨le_refl _, by dsimp only; omega, ?_⟩
    dsimp only
    rw [List.length_drop]
    omega

/-- C8: for a worker whose cursor satisfies
`start_offset ≤ cursor ≤ end_offset` and whose payload has length
`0 < L ≤ end_offset - start_offset`, every slice write of the iteration
stays inside the worker's own partition `[start_offset, end_offset)`
with data length exactly matching the slice length (so no bounds error
is possible and no byte of another partition is touched), and the
iteration re-establishes `start_offset ≤ cursor ≤ end_offset`. -/
theorem C8_write_safety (start_off end_off c : ℕ) (src : List ℕ)
    (hL : 0 < src.length) (hLS : src.length ≤ end_off - start_off)
    (hc1 : start_off ≤ c) (hc2 : c ≤ end_off) :
    (∀ w ∈ iterWrites start_off end_off src c,
      start_off ≤ w.1 ∧ w.2.1 ≤ end_off ∧ w.2.2.length = w.2.1 - w.1) ∧
    start_off ≤ nextCursor start_off end_off src.length c ∧
    nextCursor start_off end_off src.length c ≤ end_off :=
  ⟨iterWrites_bounds start_off end_off src c hL hLS hc1 hc2,
   (nextCursor_mem_Icc start_off end_off src.length c hL hLS hc1 hc2).1,
   (nextCursor_mem_Icc start_off end_off src.length c hL hLS hc1 hc2).2⟩

/-- Witness for `C8_write_safety`: partition `[0, 4)`, payload `[1, 2]`,
cursor `3` (the wraparound case). -/
theorem C8_write_safety_witness :
    (∀ w ∈ iterWrites 0 4 [1, 2] 3,
      0 ≤ w.1 ∧ w.2.1 ≤ 4 ∧ w.2.2.length = w.2.1 - w.1) ∧
    0 ≤ nextCursor 0 4 ([1, 2] : List ℕ).length 3 ∧
    nextCursor 0 4 ([1, 2] : List ℕ).length 3 ≤ 4 :=
  C8_write_safety 0 4 3 [1, 2] (by decide) (by decide) (by decide) (by decide)

/-! ## C9: the remainder bytes are never written -/

/-- Folding any sequence of slice writes whose upper bounds stay at or
below `bound` leaves every offset at or above `bound` unchanged. -/
theorem applyWrites_frame (ws : List (ℕ × ℕ × List ℕ)) (bound : ℕ)
    (hws : ∀ w ∈ ws, w.2.1 ≤ bound) :
    ∀ (mm : ℕ → ℕ) (j : ℕ), bound ≤ j → applyWrites mm ws j = mm j := by
  induction ws with
  | nil => intro mm j _; rfl
  | cons w ws ih =>
    intro mm j hj
    have htail : ∀ v ∈ ws, v.2.1 ≤ bound := fun v hv => hws v (List.mem_cons_of_mem _ hv)
    have hw : w.2.1 ≤ bound := hws w (List.mem_cons_self _ _)
    simp only [applyWrites, List.foldl_cons]
    rw [show List.foldl applyWrite (applyWrite mm w) ws = applyWrites (applyWrite mm w) ws
      from rfl]
    rw [ih htail (applyWrite mm w) j hj]
    simp only [applyWrite]
    rw [if_neg]
    push_neg
    intro _
    omega

/-- C9: when `base_size mod N ≠ 0` the trailing bytes
`[N * floor(base_size/N), base_size)` are never touched.  Any sequence
of slice writes, each issued by some worker from a partition of
`mkPartitions` with a cursor inside its partition, has all its upper
bounds at or below `N * chunk`, and therefore leaves every offset
`j ≥ N * chunk` (in particular the whole remainder range) with its
original contents. -/
theorem C9_remainder_untouched (pool_bytes threads : ℕ) (src : List ℕ)
    (hL : 0 < src.length) (hLc : src.length ≤ chunkSize pool_bytes threads)
    (events : List (ℕ × ℕ × List ℕ))
    (hev : ∀ w ∈ events, ∃ p ∈ mkPartitions pool_bytes threads, ∃ c,
      p.start_offset ≤ c ∧ c ≤ p.end_offset ∧
        w ∈ iterWrites p.start_offset p.end_offset src c) :
    (∀ w ∈ events, w.2.1 ≤ threads * chunkSize pool_bytes threads) ∧
    ∀ (mm : ℕ → ℕ) (j : ℕ), threads * chunkSize pool_bytes threads ≤ j →
      applyWrites mm events j = mm j := by
  have hbound : ∀ w ∈ events, w.2.1 ≤ threads * chunkSize pool_bytes threads := by
    intro w hw
    obtain ⟨p, hp, c, hc1, hc2, hwin⟩ := hev w hw
    obtain ⟨i, hi, hip⟩ := mkPartitions_mem _ _ p hp
    subst hip
    dsimp only at hc1 hc2 hwin
    have hLS : src.length ≤ (i * chunkSize pool_bytes threads
        + chunkSize pool_bytes threads) - i * chunkSize pool_bytes threads := by
      rw [Nat.add_sub_cancel_left]
      exact hLc
    have hbd := iterWrites_bounds _ _ src c hL hLS hc1 hc2 w hwin
    have hstep : i * chunkSize pool_bytes threads + chunkSize pool_bytes threads
        ≤ threads * chunkSize pool_bytes threads := by
      have h1 : (i + 1) * chunkSize pool_bytes threads
          ≤ threads * chunkSize pool_bytes threads :=
        Nat.mul_le_mul_right _ (by omega)
      calc i * chunkSize pool_bytes threads + chunkSize pool_bytes threads
          = (i + 1) * chunkSize pool_bytes threads := (Nat.succ_mul i _).symm
        _ ≤ threads * chunkSize pool_bytes threads := h1
    exact le_trans hbd.2.1 hstep
  exact ⟨hbound, applyWrites_frame events _ hbound⟩

/-- Witness for `C9_remainder_untouched`: `base_size = 5`, `N = 2`
(remainder 1 byte), payload `[7]`, one write event from worker 0. -/
theorem C9_remainder_untouched_witness :
    (∀ w ∈ [((0 : ℕ), (1 : ℕ), [(7 : ℕ)])], w.2.1 ≤ 2 * chunkSize 5 2) ∧
    ∀ (mm : ℕ → ℕ) (j : ℕ), 2 * chunkSize 5 2 ≤ j →
      applyWrites mm [(0, 1, [7])] j = mm j :=
  C9_remainder_untouched 5 2 [7] (by decide) (by decide) [(0, 1, [7])]
    (by
      intro w hw
      simp only [List.mem_singleton] at hw
      subst hw
      exact ⟨⟨0, 2⟩, by decide, 0, by decide, by decide, by decide⟩)

/-! ## C10: error isolation inside the worker -/

/-- A successfully completed iteration increments `write_count` by one
and `total_bytes` by the payload length (the counters are touched only
on success). -/
theorem runIterM_ok_counters (size start_off end_off : ℕ) (src : List ℕ)
    (s : WState) (mm : ℕ → ℕ) (res : WState × (ℕ → ℕ))
    (h : runIterM size start_off end_off src s mm = some res) :
    res.1.write_count = s.write_count + 1 ∧
    res.1.total_bytes = s.total_bytes + src.length := by
  simp only [runIterM] at h
  split_ifs at h with hbr hrem
  · split at h
    · simp at h
    · cases h
      exact ⟨rfl, rfl⟩
  · split at h
    · simp at h
    · split at h
      · simp at h
      · cases h
        exact ⟨rfl, rfl⟩
  · dsimp only at h
    split at h
    · simp at h
    · cases h
      exact ⟨rfl, rfl⟩

/-- The multiple-of-payload invariant survives the whole loop, including
a run abandoned by a write error: whenever the state entering the loop
satisfies `total_bytes = write_count * L`, so does the state it
returns. -/
theorem runE_multiple (size start_off end_off : ℕ) (src : List ℕ) (obs : ℕ → Bool) :
    ∀ fuel k s mm, s.total_bytes = s.write_count * src.length →
      (runE size start_off end_off src obs fuel k s mm).1.total_bytes =
        (runE size start_off end_off src obs fuel k s mm).1.write_count
          * src.length := by
  intro fuel
  induction fuel with
  | zero => intro k s mm h; exact h
  | succ fuel ih =>
    intro k s mm h
    simp only [runE]
    split_ifs with hk
    · exact h
    · cases hiter : runIterM size start_off end_off src s mm with
      | none => exact h
      | some res =>
        obtain ⟨s2, mm2⟩ := res
        have hc := runIterM_ok_counters size start_off end_off src s mm (s2, mm2) hiter
        exact ih (k + 1) s2 mm2 (by rw [hc.1, hc.2, h]; ring)

/-- C10: the worker's counters are updated only after both segments of
an iteration succeed, so a write error that aborts an iteration leaves
`write_count` and `total_bytes` exactly as they were after the last
completed iteration — the loop returns immediately with the
pre-iteration state, and (since `runE` is a total function modelling
the `try/except` in `run`) the error never propagates out of the
worker.  Consequently even an error-terminated run from the initial
state has `total_bytes` an exact multiple of the payload length. -/
theorem C10_error_isolation (size start_off end_off fuel k : ℕ) (src : List ℕ)
    (obs : ℕ → Bool) (mm mm0 : ℕ → ℕ) (s : WState)
    (hobs : obs k = false)
    (herr : runIterM size start_off end_off src s mm0 = none) :
    (runE size start_off end_off src obs fuel 0 ⟨start_off, 0, 0⟩ mm).1.total_bytes =
      (runE size start_off end_off src obs fuel 0 ⟨start_off, 0, 0⟩ mm).1.write_count
        * src.length ∧
    runE size start_off end_off src obs (fuel + 1) k s mm0 = (s, mm0) := by
  refine ⟨runE_multiple size start_off end_off src obs fuel 0 _ mm (by simp), ?_⟩
  simp only [runE]
  rw [if_neg (by simp [hobs]), herr]

/-- Witness for `C10_error_isolation`: a zero-sized mapping makes the
very first slice write fail; the worker stops with both counters still
zero. -/
theorem C10_error_isolation_witness :
    (runE 0 0 4 [7] (fun _ => false) 1 0 ⟨0, 0, 0⟩ (fun _ => 0)).1.total_bytes =
      (runE 0 0 4 [7] (fun _ => false) 1 0 ⟨0, 0, 0⟩ (fun _ => 0)).1.write_count
        * ([7] : List ℕ).length ∧
    runE 0 0 4 [7] (fun _ => false) (1 + 1) 0 ⟨0, 0, 0⟩ (fun _ => 0) =
      (⟨0, 0, 0⟩, fun _ => 0) :=
  C10_error_isolation 0 0 4 1 0 [7] (fun _ => false) (fun _ => 0) (fun _ => 0)
    ⟨0, 0, 0⟩ rfl rfl

end CyberPrayer
